import Mathlib

/-!
Shallow embedding of the claude-scientific-skills MCP servers.

The repository contains two near-duplicate server variants; both are embedded:

* the registry variant, files src/mcp_server/skill_loader.py and
  src/mcp_server/server.py: definitions `parseFrontmatter` (the tolerant
  frontmatter parser of skill_loader.py), `SkillRegistry`,
  `SkillRegistry.load`, `SkillRegistry.list_tools`,
  `SkillRegistry.get_skill_content`, `SkillRegistry.count`, `mcpEndpoint`
  and `healthEndpoint`;
* the single-file variant, file src/server.py: `parseFrontmatterSF` (whose
  str.index call raises when the closing marker is missing, modelled as
  `Except.error`), `loadSkills`, `readSkillContent`, `sfEndpoint` and
  `sfHealth`.

The skills directory is modelled by `FS`: `root = none` means the root path
is missing or not a directory; otherwise `root = some entries` lists the
immediate subdirectories in operating-system order as pairs of the directory
name and, when the directory holds a readable SKILL.md file, that file whole
text.  `sorted(os.listdir(..))` and `sorted(SKILLS_DIR.iterdir())` are
modelled by `sortEntries` (insertion sort by directory name, matching the
lexicographic code-point order Python uses on str); the unsorted
`SKILLS_DIR.iterdir()` of `_read_skill_content` walks the entries in model
order.  Python str index arithmetic is carried out on `String.data` (a code
point list, like a Python str).  The external library call yaml.safe_load is
modelled by `yamlSafeLoad`, a total line-based parser for the flat key/value
mappings the skill headers use; no claim settled here depends on YAML syntax
corner cases, and a Python dict is modelled as an insertion-ordered
association list (`dictInsert` overwrites in place, like a dict assignment).
A Python exception escaping a function is modelled with `Except Unit`.
Root-level ordinary files are not modelled: every code path of both variants
skips a root entry without a SKILL.md inside, which the `none` payload
already covers.
-/

/-- Insertion-ordered association list update, the model of Python dict
assignment: an existing key is overwritten in place, a new key is appended. -/
def dictInsert {α : Type} (m : List (String × α)) (k : String) (v : α) :
    List (String × α) :=
  match m with
  | [] => [(k, v)]
  | p :: rest => if p.1 = k then (k, v) :: rest else p :: dictInsert rest k v

/-- Association-list lookup, the model of Python dict subscription / get. -/
def dictLookup {α : Type} (m : List (String × α)) (k : String) : Option α :=
  match m with
  | [] => none
  | p :: rest => if p.1 = k then some p.2 else dictLookup rest k

/-- The key list of an association list. -/
def keysOf {α : Type} (m : List (String × α)) : List String := m.map Prod.fst

/-- Model of Python dict.get with a default value. -/
def assocGetD (m : List (String × String)) (k d : String) : String :=
  match dictLookup m k with
  | some v => v
  | none => d

/-- The three-hyphen frontmatter marker. -/
def marker : List Char := ['-', '-', '-']

/-- Model of Python str.startswith applied to the three-hyphen marker. -/
def startsWithMarker (l : List Char) : Bool := l.take 3 == marker

/-- Scan for the next occurrence of the marker, carrying the absolute index. -/
def findDashAux : List Char → Nat → Option Nat
  | [], _ => none
  | c :: rest, i =>
    if startsWithMarker (c :: rest) then some i else findDashAux rest (i + 1)

/-- Model of Python str.find / str.index of the marker from position 3:
the least index of an occurrence, or `none` when there is none (str.find
returns -1 there, and str.index raises ValueError). -/
def findDash (l : List Char) : Option Nat := findDashAux (l.drop 3) 3

/-- Model of Python str.strip (restricted to ASCII whitespace). -/
def pyStrip (l : List Char) : List Char :=
  ((l.dropWhile Char.isWhitespace).reverse.dropWhile Char.isWhitespace).reverse

/-- Split a character list at newline characters. -/
def splitLines : List Char → List (List Char)
  | [] => [[]]
  | c :: rest =>
    let r := splitLines rest
    if c = '\n' then [] :: r
    else
      match r with
      | [] => [[c]]
      | line :: more => (c :: line) :: more

/-- Drop one pair of surrounding double quotes, as YAML does on quoted
scalars. -/
def stripQuotes (l : List Char) : List Char :=
  if 2 ≤ l.length ∧ l.head? = some '"' ∧ l.getLast? = some '"' then
    (l.drop 1).dropLast
  else l

/-- Parse one `key: value` line of a flat YAML mapping; lines without a colon
are ignored. -/
def parseYamlLine (l : List Char) : Option (String × String) :=
  let key := l.takeWhile (fun c => c != ':')
  let rest := l.dropWhile (fun c => c != ':')
  match rest with
  | [] => none
  | _ :: valuePart =>
    some (String.mk (pyStrip key), String.mk (stripQuotes (pyStrip valuePart)))

/-- Model of the external yaml.safe_load library call on the flat key/value
mappings skill headers use, composed with the `or \x7b\x7d` default both
variants apply: a total, tolerant parser producing a string-to-string dict. -/
def yamlSafeLoad (l : List Char) : List (String × String) :=
  (splitLines l).foldl
    (fun m line =>
      match parseYamlLine line with
      | none => m
      | some kv => dictInsert m kv.1 kv.2)
    []

/-- Embedding of skill_loader.py _parse_frontmatter: returns the metadata
dict and the stripped body; a text not starting with the marker, or with no
second marker, yields empty metadata and the whole text as body. -/
def parseFrontmatter (content : String) : List (String × String) × String :=
  let l := content.data
  if startsWithMarker l then
    match findDash l with
    | none => ([], content)
    | some e =>
      (yamlSafeLoad (pyStrip ((l.drop 3).take (e - 3))),
        String.mk (pyStrip (l.drop (e + 3))))
  else ([], content)

/-- Embedding of src/server.py _parse_frontmatter: text.index raises
ValueError when the start marker has no later occurrence, modelled as
`Except.error ()`. -/
def parseFrontmatterSF (text : String) : Except Unit (List (String × String)) :=
  let l := text.data
  if startsWithMarker l then
    match findDash l with
    | none => Except.error ()
    | some e => Except.ok (yamlSafeLoad ((l.drop 3).take (e - 3)))
  else Except.ok []

/-- The skills directory: `none` when the root path is missing or not a
directory, otherwise the immediate subdirectories in operating-system order,
each with the text of its SKILL.md when that file exists and is readable. -/
structure FS where
  root : Option (List (String × Option String))
deriving DecidableEq

/-- One loaded skill, the value stored in SkillRegistry._skills. -/
structure Skill where
  name : String
  description : String
  dir_name : String
  content : String
deriving DecidableEq

/-- The skill value skill_loader.py builds for one scanned subdirectory:
`none` when the directory has no SKILL.md. -/
def skillOfEntry (e : String × Option String) : Option Skill :=
  match e.2 with
  | none => none
  | some content =>
    let meta := (parseFrontmatter content).1
    some
      { name := assocGetD meta "name" e.1
        description := assocGetD meta "description" ""
        dir_name := e.1
        content := content }

/-- Lexicographic strict comparison of code-point lists, the order Python
uses on str; written structurally so concrete sorts evaluate. -/
def charListLt : List Char → List Char → Bool
  | [], [] => false
  | [], _ :: _ => true
  | _ :: _, [] => false
  | a :: as, b :: bs =>
    if a < b then true else if b < a then false else charListLt as bs

/-- Strict lexicographic comparison of strings by code point. -/
def strLtB (a b : String) : Bool := charListLt a.data b.data

/-- Comparison of directory entries by name, the key Python sorted uses:
the first entry name is not strictly greater. -/
def entryLe (a b : String × Option String) : Prop := strLtB b.1 a.1 = false

instance : DecidableRel entryLe :=
  fun a b => inferInstanceAs (Decidable (strLtB b.1 a.1 = false))

/-- Model of sorted(os.listdir(..)): deterministic lexicographic order by
directory name. -/
def sortEntries (entries : List (String × Option String)) :
    List (String × Option String) :=
  List.insertionSort entryLe entries

/-- The registry state: the _skills dict and the _loaded flag. -/
structure SkillRegistry where
  skills : List (String × Skill)
  loaded : Bool
deriving DecidableEq

/-- A freshly constructed SkillRegistry. -/
def SkillRegistry.init : SkillRegistry := { skills := [], loaded := false }

/-- One iteration of the scan loop in SkillRegistry.load: a subdirectory
with a SKILL.md is parsed and assigned into the dict under its name. -/
def loadStep (m : List (String × Skill)) (e : String × Option String) :
    List (String × Skill) :=
  match skillOfEntry e with
  | none => m
  | some s => dictInsert m s.name s

/-- Embedding of SkillRegistry.load: a missing root only sets the loaded
flag; otherwise every subdirectory of the sorted scan holding a SKILL.md is
parsed and assigned into the existing dict (the dict is not cleared first). -/
def SkillRegistry.load (r : SkillRegistry) (fs : FS) : SkillRegistry :=
  match fs.root with
  | none => { r with loaded := true }
  | some entries =>
    { skills := (sortEntries entries).foldl loadStep r.skills, loaded := true }

/-- The lazy-load guard every registry query runs first. -/
def SkillRegistry.ensure (r : SkillRegistry) (fs : FS) : SkillRegistry :=
  if r.loaded then r else r.load fs

/-- A tool descriptor; the fixed input schema is represented by the one
datum distinguishing it, the description of its single query property. -/
structure Tool where
  name : String
  description : String
  schemaQueryDescription : String
deriving DecidableEq

/-- The fixed query description of the registry variant. -/
def registryQueryDescription : String :=
  "The scientific question or task to get guidance on"

/-- The fixed query description of the single-file variant. -/
def sfQueryDescription : String :=
  "The query or task to perform with this skill"

/-- The descriptor SkillRegistry.list_tools emits for one skill. -/
def toolOfSkill (s : Skill) : Tool :=
  { name := s.name
    description := s.description
    schemaQueryDescription := registryQueryDescription }

/-- Embedding of SkillRegistry.list_tools. -/
def SkillRegistry.list_tools (r : SkillRegistry) (fs : FS) : List Tool :=
  (r.ensure fs).skills.map (fun p => toolOfSkill p.2)

/-- Embedding of SkillRegistry.get_skill_content: a single dict lookup by
canonical name. -/
def SkillRegistry.get_skill_content (r : SkillRegistry) (fs : FS)
    (name : String) : Option String :=
  (dictLookup (r.ensure fs).skills name).map Skill.content

/-- Embedding of SkillRegistry.count. -/
def SkillRegistry.count (r : SkillRegistry) (fs : FS) : Nat :=
  (r.ensure fs).skills.length

/-- A decoded protocol request as both endpoints read it: id, method and
params keys, each possibly absent. -/
structure Request where
  id : Option String
  method : Option String
  params : List (String × String)
deriving DecidableEq

/-- The method-specific result payloads either endpoint can produce. -/
inductive RpcResult where
  | initRes : String → String → String → RpcResult
  | toolsRes : List Tool → RpcResult
  | callRes : String → RpcResult
  | resourcesRes : RpcResult
deriving DecidableEq

/-- The response envelope: echoed id, optional result, optional error.
An absent key and an explicit JSON null are both modelled as `none`. -/
structure Response where
  id : String
  result : Option RpcResult
  error : Option String
deriving DecidableEq

/-- The health surface payload. -/
structure Health where
  status : String
  tools_count : Nat
deriving DecidableEq

/-- Embedding of src/mcp_server/server.py mcp_endpoint. -/
def mcpEndpoint (registry : SkillRegistry) (fs : FS) (body : Request) :
    Response :=
  let message_id := body.id.getD "unknown"
  let method := body.method.getD ""
  if method = "initialize" then
    { id := message_id
      result := some (RpcResult.initRes "2024-11-05" "scientific-skills-mcp" "1.0.0")
      error := none }
  else if method = "tools/list" then
    { id := message_id
      result := some (RpcResult.toolsRes (registry.list_tools fs))
      error := none }
  else if method = "tools/call" then
    let tool_name := assocGetD body.params "name" ""
    match registry.get_skill_content fs tool_name with
    | none =>
      { id := message_id, result := none
        error := some ("Unknown tool: " ++ tool_name) }
    | some content =>
      { id := message_id, result := some (RpcResult.callRes content)
        error := none }
  else
    { id := message_id, result := none
      error := some ("Unsupported method: " ++ method) }

/-- Embedding of src/mcp_server/server.py health. -/
def healthEndpoint (registry : SkillRegistry) (fs : FS) : Health :=
  { status := "healthy", tools_count := registry.count fs }

/-- The descriptor src/server.py _load_skills builds for one subdirectory,
or `none` when parsing raised and the except branch skipped it. -/
def toolOfSF (entry : String) (content : String) : Option Tool :=
  match parseFrontmatterSF content with
  | Except.error _ => none
  | Except.ok meta =>
    let name := assocGetD meta "name" entry
    some
      { name := name
        description := assocGetD meta "description" ("Scientific skill: " ++ name)
        schemaQueryDescription := sfQueryDescription }

/-- Embedding of src/server.py _load_skills: appends one descriptor per
subdirectory of the sorted scan, with no dedup by name. -/
def loadSkills (fs : FS) : List Tool :=
  match fs.root with
  | none => []
  | some entries =>
    (sortEntries entries).foldl
      (fun acc e =>
        match e.2 with
        | none => acc
        | some content =>
          match toolOfSF e.1 content with
          | none => acc
          | some t => acc ++ [t])
      []

/-- The fallback loop of src/server.py _read_skill_content: walk the entries
in iteration order, parse each SKILL.md frontmatter with no except handler
(a parse failure escapes), and return the first file whose metadata name
equals the requested name. -/
def scanFor : List (String × Option String) → String → Except Unit (Option String)
  | [], _ => Except.ok none
  | (_, none) :: rest, n => scanFor rest n
  | (_, some c) :: rest, n =>
    match parseFrontmatterSF c with
    | Except.error e => Except.error e
    | Except.ok meta =>
      match dictLookup meta "name" with
      | some v => if v = n then Except.ok (some c) else scanFor rest n
      | none => scanFor rest n

/-- Embedding of src/server.py _read_skill_content: the direct path checks
for a subdirectory named like the request holding a SKILL.md; on a miss the
unsorted fallback scan runs, and SKILLS_DIR.iterdir() raises when the root is
missing. -/
def readSkillContent (fs : FS) (skill_name : String) :
    Except Unit (Option String) :=
  let direct : Option String :=
    match fs.root with
    | none => none
    | some entries =>
      match entries.find? (fun e => e.1 == skill_name) with
      | some (_, some c) => some c
      | _ => none
  match direct with
  | some c => Except.ok (some c)
  | none =>
    match fs.root with
    | none => Except.error ()
    | some entries => scanFor entries skill_name

/-- A one-character string holding a single quote, written by code point. -/
def quoteStr : String := String.mk [Char.ofNat 39]

/-- Embedding of src/server.py mcp_endpoint: `tools` is the _TOOLS value
computed at startup, while tools/call consults the filesystem passed now. -/
def sfEndpoint (fs : FS) (tools : List Tool) (body : Request) :
    Except Unit Response :=
  let msg_id := body.id.getD ""
  let method := body.method.getD ""
  if method = "initialize" then
    Except.ok
      { id := msg_id
        result := some (RpcResult.initRes "2024-11-05" "scientific-skills" "1.0.0")
        error := none }
  else if method = "tools/list" then
    Except.ok { id := msg_id, result := some (RpcResult.toolsRes tools), error := none }
  else if method = "tools/call" then
    let tool_name := assocGetD body.params "name" ""
    match readSkillContent fs tool_name with
    | Except.error e => Except.error e
    | Except.ok none =>
      Except.ok
        { id := msg_id, result := none
          error := some ("Skill " ++ quoteStr ++ tool_name ++ quoteStr ++ " not found") }
    | Except.ok (some content) =>
      Except.ok
        { id := msg_id, result := some (RpcResult.callRes content), error := none }
  else if method = "resources/list" then
    Except.ok { id := msg_id, result := some RpcResult.resourcesRes, error := none }
  else if method = "resources/read" then
    Except.ok { id := msg_id, result := none, error := some "Resource not found" }
  else
    Except.ok
      { id := msg_id, result := none
        error := some ("Unknown method: " ++ method) }

/-- Embedding of src/server.py health. -/
def sfHealth (tools : List Tool) : Health :=
  { status := "ok", tools_count := tools.length }

/-- The last element of a list satisfying a predicate. -/
def findLast {α : Type} (p : α → Bool) : List α → Option α
  | [] => none
  | x :: xs =>
    match findLast p xs with
    | some y => some y
    | none => if p x then some x else none

/-- Whether a scanned directory entry produces a skill with the given
canonical name. -/
def resolves (k : String) (e : String × Option String) : Bool :=
  match skillOfEntry e with
  | some s => s.name == k
  | none => false

/-- Insert a key into a key list the way dictInsert does. -/
def keyInsert (K : List String) (k : String) : List String :=
  if k ∈ K then K else K ++ [k]

/-- The effect of one loadStep on the key list alone. -/
def keyStep (K : List String) (e : String × Option String) : List String :=
  match skillOfEntry e with
  | none => K
  | some s => keyInsert K s.name

/-- Directory fixture: one skill directory whose SKILL.md is empty. -/
def fsC1 : FS := ⟨some [("alpha", some "")]⟩

/-- Directory fixture: a skill file with an unterminated header next to a
well-formed one. -/
def fsC2 : FS := ⟨some [("bad", some "---"), ("zz", some "---\nname: zebra\n---\nhello")]⟩

/-- Request fixture: a tools/call for a name no skill carries. -/
def reqC2 : Request := { id := some "9", method := some "tools/call", params := [("name", "nope")] }

/-- Directory fixture: two directories whose metadata declare the same
canonical name. -/
def fsC3 : FS := ⟨some [("a", some "---\nname: x\n---\nA"), ("b", some "---\nname: x\n---\nB")]⟩

/-- Directory fixture: a single skill file whose header is opened and never
closed. -/
def fsC4 : FS := ⟨some [("broken", some "---\ntitle: y")]⟩

/-- Request fixture: a tools/call for an unknown name against fsC4. -/
def reqC4 : Request := { id := some "4", method := some "tools/call", params := [("name", "ghost")] }

/-- Directory fixture: a directory whose metadata name differs from the
directory name. -/
def fsC5 : FS := ⟨some [("alpha", some "---\nname: Alpha\n---\nbody")]⟩

/-- Directory fixture: one header-less skill. -/
def fsOne : FS := ⟨some [("solo", some "hello")]⟩

/-- Directory fixture: an existing root with no subdirectories. -/
def fsEmptyDir : FS := ⟨some []⟩

/-- Directory fixture: the root path is missing. -/
def fsNoRoot : FS := ⟨none⟩

/-- Directory fixture: only a skill file with an unterminated header. -/
def fsC9 : FS := ⟨some [("bad", some "---")]⟩

/-- Request fixture: a tools/call whose params mapping lacks the name key. -/
def reqC9 : Request := { id := some "7", method := some "tools/call", params := [] }

/-- Directory fixture: one plain skill directory. -/
def fsC10 : FS := ⟨some [("alpha", some "hello world")]⟩

/-- Request fixture: a tools/call naming the fsC10 directory. -/
def reqC10 : Request := { id := some "10", method := some "tools/call", params := [("name", "alpha")] }

/-- Directory fixture used by witnesses: one header-less skill. -/
def fsW1 : FS := ⟨some [("w", some "doc")]⟩

/-- Directory fixture used by witnesses: a collision between two declared
names, with the later directory in sorted order winning. -/
def fsW3 : FS := ⟨some [("p", some "---\nname: q\n---\nP"), ("q9", some "---\nname: q\n---\nQ")]⟩

/-- Directory fixture used by witnesses: one skill with content K. -/
def fsW5 : FS := ⟨some [("w5", some "K")]⟩

/-- Request fixture used by witnesses: a tools/call for an absent name. -/
def reqW2 : Request := { id := some "w2", method := some "tools/call", params := [("name", "gone")] }

/-- Request fixture used by witnesses: an initialize request. -/
def reqW8 : Request := { id := some "8", method := some "initialize", params := [] }

/-- Request fixture used by witnesses: a tools/call without a name param. -/
def reqW9 : Request := { id := some "w9", method := some "tools/call", params := [("query", "hi")] }

/-- Looking up after a dict insertion: the inserted key is found with the new
value, all other keys are unaffected. -/
theorem dictLookup_dictInsert {α : Type} (m : List (String × α)) (k k2 : String) (v : α) :
    dictLookup (dictInsert m k v) k2 = if k = k2 then some v else dictLookup m k2 := by
  induction m with
  | nil =>
    by_cases h : k = k2 <;> simp [dictInsert, dictLookup, h]
  | cons p rest ih =>
    by_cases h : p.1 = k
    · by_cases h2 : k = k2
      · simp [dictInsert, dictLookup, h, h2]
      · have hp : ¬ p.1 = k2 := by rw [h]; exact h2
        simp [dictInsert, dictLookup, h, h2, hp]
    · by_cases hp : p.1 = k2
      · have h2 : ¬ k = k2 := by intro hk; rw [hk] at h; exact h hp
        rw [hp] at h
        simp [dictInsert, dictLookup, h, hp, h2]
      · simp [dictInsert, dictLookup, h, hp, ih]

/-- The key list of an empty association list. -/
theorem keysOf_nil {α : Type} : keysOf ([] : List (String × α)) = [] := rfl

/-- The key list of a non-empty association list. -/
theorem keysOf_cons {α : Type} (p : String × α) (m : List (String × α)) :
    keysOf (p :: m) = p.1 :: keysOf m := rfl

/-- The key list after a dict insertion. -/
theorem keysOf_dictInsert {α : Type} (m : List (String × α)) (k : String) (v : α) :
    keysOf (dictInsert m k v) =
      if k ∈ keysOf m then keysOf m else keysOf m ++ [k] := by
  induction m with
  | nil => simp [dictInsert, keysOf_nil, keysOf_cons]
  | cons p rest ih =>
    by_cases h : p.1 = k
    · simp [dictInsert, keysOf_cons, h, List.mem_cons]
    · have hne : ¬ k = p.1 := fun hk => h hk.symm
      by_cases hm : k ∈ keysOf rest <;>
        simp [dictInsert, keysOf_cons, h, hne, hm, ih, List.mem_cons]

/-- Dict insertion preserves distinctness of the key list. -/
theorem nodup_keysOf_dictInsert {α : Type} (m : List (String × α)) (k : String) (v : α)
    (h : (keysOf m).Nodup) : (keysOf (dictInsert m k v)).Nodup := by
  rw [keysOf_dictInsert]
  by_cases hm : k ∈ keysOf m
  · simpa [hm]
  · simp only [hm, if_false]
    exact List.Nodup.append h (List.nodup_singleton k)
      (by simpa [List.disjoint_singleton] using hm)

/-- Membership after a dict insertion. -/
theorem mem_dictInsert_elim {α : Type} {m : List (String × α)} {k : String} {v : α}
    {p : String × α} (h : p ∈ dictInsert m k v) : p = (k, v) ∨ p ∈ m := by
  induction m with
  | nil => simpa [dictInsert] using h
  | cons q rest ih =>
    by_cases hq : q.1 = k
    · rcases (by simpa [dictInsert, hq] using h) with h | h
      · left; simpa using h
      · right; exact List.mem_cons_of_mem q h
    · rcases (by simpa [dictInsert, hq] using h) with h | h
      · right; simp [h]
      · rcases ih h with h | h
        · left; exact h
        · right; exact List.mem_cons_of_mem q h

/-- A pair found by lookup is a member of the association list. -/
theorem mem_of_dictLookup {α : Type} {m : List (String × α)} {k : String} {v : α}
    (h : dictLookup m k = some v) : (k, v) ∈ m := by
  induction m with
  | nil => simp [dictLookup] at h
  | cons p rest ih =>
    by_cases hp : p.1 = k
    · have hsome : some p.2 = some v := by simpa [dictLookup, hp] using h
      have hv : p.2 = v := by injection hsome
      exact List.mem_cons.mpr (Or.inl (by cases p; simp_all))
    · have := by simpa [dictLookup, hp] using h
      exact List.mem_cons_of_mem p (ih this)

/-- With distinct keys, membership determines the lookup result. -/
theorem dictLookup_of_mem_nodup {α : Type} {m : List (String × α)} {k : String} {v : α}
    (hn : (keysOf m).Nodup) (hm : (k, v) ∈ m) : dictLookup m k = some v := by
  induction m with
  | nil => simp at hm
  | cons p rest ih =>
    rcases List.mem_cons.mp hm with h | h
    · subst h; simp [dictLookup]
    · have hk : k ∈ keysOf rest := by
        simpa [keysOf] using List.mem_map_of_mem Prod.fst h
      have hp : ¬ p.1 = k := by
        intro hpk
        have : p.1 ∉ keysOf rest := (List.nodup_cons.mp (by simpa [keysOf] using hn)).1
        exact this (hpk ▸ hk)
      have hrest : (keysOf rest).Nodup := (List.nodup_cons.mp (by simpa [keysOf] using hn)).2
      simpa [dictLookup, hp] using ih hrest h

/-- With distinct keys, exactly one stored pair carries a looked-up key. -/
theorem countP_key_eq_one {α : Type} {m : List (String × α)} {k : String}
    (hn : (keysOf m).Nodup) (h : (dictLookup m k).isSome) :
    m.countP (fun p => p.1 == k) = 1 := by
  induction m with
  | nil => simp [dictLookup] at h
  | cons p rest ih =>
    have hhead : p.1 ∉ keysOf rest := (List.nodup_cons.mp (by simpa [keysOf] using hn)).1
    have hrest : (keysOf rest).Nodup := (List.nodup_cons.mp (by simpa [keysOf] using hn)).2
    by_cases hp : p.1 = k
    · have hzero : rest.countP (fun q => q.1 == k) = 0 := by
        rw [List.countP_eq_zero]
        intro q hq
        simp only [beq_iff_eq]
        intro hqk
        exact hhead (by simpa [keysOf, hp, hqk] using List.mem_map_of_mem Prod.fst hq)
      simp [List.countP_cons, hp, hzero]
    · have h2 : (dictLookup rest k).isSome := by simpa [dictLookup, hp] using h
      simp [List.countP_cons, hp, ih hrest h2]

/-- An element found by findLast is a member satisfying the predicate. -/
theorem findLast_eq_some {α : Type} {p : α → Bool} :
    ∀ {l : List α} {x : α}, findLast p l = some x → x ∈ l ∧ p x = true := by
  intro l
  induction l with
  | nil => intro x h; simp [findLast] at h
  | cons a as ih =>
    intro x h
    rcases hs : findLast p as with _ | y
    · rcases hp : p a with _ | _
      · simp [findLast, hs, hp] at h
      · have : some a = some x := by simpa [findLast, hs, hp] using h
        have hax : a = x := by injection this
        exact ⟨by simp [hax.symm ▸ List.mem_cons_self a as, hax], hax ▸ hp⟩
    · have : some y = some x := by simpa [findLast, hs] using h
      have hyx : y = x := by injection this
      rcases ih (hyx ▸ hs) with ⟨hm, hp⟩
      exact ⟨List.mem_cons_of_mem a hm, hp⟩

/-- When findLast yields nothing, no member satisfies the predicate. -/
theorem findLast_eq_none {α : Type} {p : α → Bool} :
    ∀ {l : List α}, findLast p l = none → ∀ x ∈ l, p x = false := by
  intro l
  induction l with
  | nil => intro _ x hx; simp at hx
  | cons a as ih =>
    intro h x hx
    rcases hs : findLast p as with _ | y
    · rcases hp : p a with _ | _
      · rcases List.mem_cons.mp hx with hax | hx2
        · rw [hax]; exact hp
        · exact ih hs x hx2
      · simp [findLast, hs, hp] at h
    · simp [findLast, hs] at h

/-- The effect of one scan-loop iteration on a lookup. -/
theorem dictLookup_loadStep (m : List (String × Skill)) (e : String × Option String)
    (k : String) :
    dictLookup (loadStep m e) k =
      if resolves k e then skillOfEntry e else dictLookup m k := by
  rcases hs : skillOfEntry e with _ | s
  · simp [loadStep, resolves, hs]
  · by_cases hn : s.name = k
    · simp [loadStep, resolves, hs, hn, dictLookup_dictInsert]
    · simp [loadStep, resolves, hs, hn, dictLookup_dictInsert]

/-- Lookup after the whole scan loop: the last entry of the scan that
resolves to the key decides the value; keys no scanned entry resolves to
keep their prior binding (the dict is never cleared). -/
theorem dictLookup_foldl_loadStep (k : String) :
    ∀ (es : List (String × Option String)) (m : List (String × Skill)),
      dictLookup (es.foldl loadStep m) k =
        match findLast (resolves k) es with
        | some e => skillOfEntry e
        | none => dictLookup m k := by
  intro es
  induction es with
  | nil => intro m; simp [findLast]
  | cons e tl ih =>
    intro m
    rw [List.foldl_cons, ih]
    rcases hs : findLast (resolves k) tl with _ | y
    · rcases hp : resolves k e with _ | _ <;>
        simp [findLast, hs, hp, dictLookup_loadStep]
    · simp [findLast, hs]

/-- The scan loop preserves distinctness of the key list. -/
theorem nodup_keysOf_foldl_loadStep :
    ∀ (es : List (String × Option String)) (m : List (String × Skill)),
      (keysOf m).Nodup → (keysOf (es.foldl loadStep m)).Nodup := by
  intro es
  induction es with
  | nil => intro m h; simpa using h
  | cons e tl ih =>
    intro m h
    rw [List.foldl_cons]
    apply ih
    rcases hs : skillOfEntry e with _ | s
    · simpa [loadStep, hs] using h
    · simpa [loadStep, hs] using nodup_keysOf_dictInsert m s.name s h

/-- Provenance of every stored pair: it was produced by some scanned entry
(and is keyed by its skill name), or it was already in the dict. -/
theorem mem_foldl_loadStep :
    ∀ (es : List (String × Option String)) (m : List (String × Skill))
      (p : String × Skill), p ∈ es.foldl loadStep m →
      (∃ e ∈ es, skillOfEntry e = some p.2 ∧ p.1 = p.2.name) ∨ p ∈ m := by
  intro es
  induction es with
  | nil => intro m p h; right; simpa using h
  | cons e tl ih =>
    intro m p h
    rw [List.foldl_cons] at h
    rcases ih (loadStep m e) p h with h2 | h2
    · rcases h2 with ⟨e2, he2, hsk, hk⟩
      exact Or.inl ⟨e2, List.mem_cons_of_mem e he2, hsk, hk⟩
    · rcases hs : skillOfEntry e with _ | s
      · right; simpa [loadStep, hs] using h2
      · rw [loadStep, hs] at h2
        rcases mem_dictInsert_elim h2 with h3 | h3
        · exact Or.inl ⟨e, List.mem_cons_self e tl, by simp [h3, hs], by simp [h3]⟩
        · exact Or.inr h3
/-- In a scan sorted by directory name, when every matching entry is either
the given one or strictly earlier in the name order, findLast selects the
given one. -/
theorem findLast_sorted :
    ∀ (l : List (String × Option String)), List.Sorted entryLe l →
      ∀ (p : (String × Option String) → Bool) (e2 : String × Option String),
        e2 ∈ l → p e2 = true →
        (∀ e ∈ l, p e = true → e = e2 ∨ strLtB e.1 e2.1 = true) →
        findLast p l = some e2 := by
  intro l
  induction l with
  | nil => intro _ p e2 h2; simp at h2
  | cons x xs ih =>
    intro hs p e2 h2 hp honly
    have hx : ∀ b ∈ xs, entryLe x b := (List.sorted_cons.mp hs).1
    have hxs : List.Sorted entryLe xs := (List.sorted_cons.mp hs).2
    rcases List.mem_cons.mp h2 with hex | hex
    · have hnone : ∀ r, findLast p xs = some r → r = e2 := by
        intro r hr
        rcases findLast_eq_some hr with ⟨hrm, hrp⟩
        rcases honly r (List.mem_cons_of_mem x hrm) hrp with h | h
        · exact h
        · have hfalse : strLtB r.1 e2.1 = false := by
            have h2 := hx r hrm
            simp only [entryLe] at h2
            rw [← hex] at h2
            exact h2
          rw [h] at hfalse
          exact Bool.noConfusion hfalse
      rcases hfl : findLast p xs with _ | r
      · simp [findLast, hfl, hex ▸ hp, hex]
      · have := hnone r hfl
        simp [findLast, hfl, this]
    · have : findLast p xs = some e2 := by
        apply ih hxs p e2 hex hp
        intro e he hpe
        exact honly e (List.mem_cons_of_mem x he) hpe
      simp [findLast, this]

/-- One scan-loop iteration only transforms the key list through keyStep. -/
theorem keysOf_loadStep (m : List (String × Skill)) (e : String × Option String) :
    keysOf (loadStep m e) = keyStep (keysOf m) e := by
  rcases hs : skillOfEntry e with _ | s
  · simp [loadStep, keyStep, hs]
  · simp [loadStep, keyStep, hs, keyInsert, keysOf_dictInsert]

/-- The key list of the scan loop is the key-level fold. -/
theorem keysOf_foldl_loadStep :
    ∀ (es : List (String × Option String)) (m : List (String × Skill)),
      keysOf (es.foldl loadStep m) = es.foldl keyStep (keysOf m) := by
  intro es
  induction es with
  | nil => intro m; simp
  | cons e tl ih =>
    intro m
    rw [List.foldl_cons, List.foldl_cons, ih, keysOf_loadStep]

/-- keyInsert keeps every key already present. -/
theorem mem_keyInsert_mono {K : List String} {a k : String} (h : a ∈ K) :
    a ∈ keyInsert K k := by
  by_cases hk : k ∈ K <;> simp [keyInsert, hk, h]

/-- keyInsert contains the inserted key. -/
theorem mem_keyInsert_self (K : List String) (k : String) : k ∈ keyInsert K k := by
  by_cases hk : k ∈ K <;> simp [keyInsert, hk]

/-- The key-level fold keeps every key already present. -/
theorem mem_foldl_keyStep_mono :
    ∀ (es : List (String × Option String)) (K : List String) (a : String),
      a ∈ K → a ∈ es.foldl keyStep K := by
  intro es
  induction es with
  | nil => intro K a h; simpa using h
  | cons e tl ih =>
    intro K a h
    rw [List.foldl_cons]
    apply ih
    rcases hs : skillOfEntry e with _ | s
    · simpa [keyStep, hs] using h
    · simpa [keyStep, hs] using mem_keyInsert_mono h

/-- Every name a scanned entry resolves to sits in the key-level fold. -/
theorem mem_foldl_keyStep_of_entry :
    ∀ (es : List (String × Option String)) (K : List String)
      (e : String × Option String) (s : Skill),
      e ∈ es → skillOfEntry e = some s → s.name ∈ es.foldl keyStep K := by
  intro es
  induction es with
  | nil => intro K e s h; simp at h
  | cons e2 tl ih =>
    intro K e s h hsk
    rw [List.foldl_cons]
    rcases List.mem_cons.mp h with h | h
    · apply mem_foldl_keyStep_mono
      rw [← h] at *
      simp [keyStep, hsk]
      exact mem_keyInsert_self K s.name
    · exact ih (keyStep K e2) e s h hsk

/-- When every name the scan resolves is already a key, the key-level fold
changes nothing. -/
theorem foldl_keyStep_noop :
    ∀ (es : List (String × Option String)) (K : List String),
      (∀ e ∈ es, ∀ s, skillOfEntry e = some s → s.name ∈ K) →
      es.foldl keyStep K = K := by
  intro es
  induction es with
  | nil => intro K _; simp
  | cons e tl ih =>
    intro K h
    have hstep : keyStep K e = K := by
      rcases hs : skillOfEntry e with _ | s
      · simp [keyStep, hs]
      · simp [keyStep, hs, keyInsert, h e (List.mem_cons_self e tl) s hs]
    rw [List.foldl_cons, hstep]
    exact ih K (fun e2 he2 s hs => h e2 (List.mem_cons_of_mem e he2) s hs)

/-- Running the key-level fold twice equals running it once. -/
theorem foldl_keyStep_idem (es : List (String × Option String)) (K : List String) :
    es.foldl keyStep (es.foldl keyStep K) = es.foldl keyStep K := by
  apply foldl_keyStep_noop
  intro e he s hs
  exact mem_foldl_keyStep_of_entry es K e s he hs

/-- load always sets the loaded flag. -/
theorem loaded_load (r : SkillRegistry) (fs : FS) : (r.load fs).loaded = true := by
  rcases h : fs.root with _ | es <;> simp [SkillRegistry.load, h]

/-- A loaded registry passes the lazy-load guard unchanged. -/
theorem ensure_load (r : SkillRegistry) (fs fs2 : FS) :
    (r.load fs).ensure fs2 = r.load fs := by
  simp [SkillRegistry.ensure, loaded_load]

/-- The skills dict produced by load over an existing root. -/
theorem skills_load (r : SkillRegistry) (fs : FS)
    (entries : List (String × Option String)) (h : fs.root = some entries) :
    (r.load fs).skills = (sortEntries entries).foldl loadStep r.skills := by
  simp [SkillRegistry.load, h]

/-- C1 counterexample: in the registry fsC1, whose single skill directory
holds an empty SKILL.md, the listed name alpha round-trips to the empty
string, so the round-trip content is not always non-empty. -/
theorem C1_counterexample :
    ¬ (∀ t ∈ (SkillRegistry.init.load fsC1).list_tools fsC1,
        ∀ c, (SkillRegistry.init.load fsC1).get_skill_content fsC1 t.name = some c →
          c ≠ "") := by
  intro h
  exact h
    { name := "alpha", description := ""
      schemaQueryDescription := registryQueryDescription }
    (by decide) "" rfl rfl

/-- C2 counterexample: on fsC2 the requested name nope is not among the
listed tools, yet the single-file dispatcher raises (the fallback scan hits
the unterminated header of bad/SKILL.md) instead of answering with an error
envelope. -/
theorem C2_counterexample :
    sfEndpoint fsC2 (loadSkills fsC2) reqC2 = Except.error () ∧
    "nope" ∉ (loadSkills fsC2).map Tool.name := ⟨rfl, by decide⟩

/-- C3 counterexample: on fsC3, two directories declaring the same canonical
name x, the single-file tool list holds two descriptors named x (duplicates,
not one entry), and the call-time lookup returns the file of directory a,
the EARLIER one in scan order. -/
theorem C3_counterexample :
    (loadSkills fsC3).map Tool.name = ["x", "x"] ∧
    readSkillContent fsC3 "x" = Except.ok (some "---\nname: x\n---\nA") := ⟨rfl, rfl⟩

/-- C5 counterexample: on fsC5 the directory alpha declares canonical name
Alpha; the registry lookup by the directory name alpha fails while the
canonical name succeeds, so directory-name aliasing is not preserved. -/
theorem C5_counterexample :
    (SkillRegistry.init.load fsC5).get_skill_content fsC5 "alpha" = none ∧
    (SkillRegistry.init.load fsC5).get_skill_content fsC5 "Alpha" =
      some "---\nname: Alpha\n---\nbody" := ⟨rfl, rfl⟩

/-- C6 counterexample: a fresh load of the empty directory yields an empty
dict, yet re-loading the empty directory over a registry loaded from fsOne
keeps the old entry - the second load does not replace the mapping. -/
theorem C6_counterexample :
    (SkillRegistry.init.load fsEmptyDir).skills = [] ∧
    ((SkillRegistry.init.load fsOne).load fsEmptyDir).skills ≠ [] := ⟨rfl, by decide⟩

/-- C9 counterexample: on fsC9 no skill is listed at all (so none is
registered under the empty name), yet a tools/call without a name param
makes the single-file dispatcher raise from the fallback scan instead of
producing the unknown-tool envelope. -/
theorem C9_counterexample :
    sfEndpoint fsC9 (loadSkills fsC9) reqC9 = Except.error () ∧
    loadSkills fsC9 = [] := ⟨rfl, rfl⟩

/-- C7: a missing or non-directory root leaves both variants with an empty
catalog and a healthy health payload reporting zero tools, not an error. -/
theorem C7_missing_root (fs : FS) (h : fs.root = none) :
    (SkillRegistry.init.load fs).count fs = 0 ∧
    (SkillRegistry.init.load fs).list_tools fs = [] ∧
    healthEndpoint (SkillRegistry.init.load fs) fs =
      { status := "healthy", tools_count := 0 } ∧
    loadSkills fs = [] ∧
    sfHealth (loadSkills fs) = { status := "ok", tools_count := 0 } := by
  refine ⟨?_, ?_, ?_, ?_, ?_⟩ <;>
    simp [SkillRegistry.load, SkillRegistry.count, SkillRegistry.list_tools,
      SkillRegistry.ensure, SkillRegistry.init, healthEndpoint, loadSkills,
      sfHealth, h]

/-- C7 witness: the conclusion instantiated at the missing-root fixture. -/
theorem C7_missing_root_witness :
    (SkillRegistry.init.load fsNoRoot).count fsNoRoot = 0 ∧
    (SkillRegistry.init.load fsNoRoot).list_tools fsNoRoot = [] ∧
    healthEndpoint (SkillRegistry.init.load fsNoRoot) fsNoRoot =
      { status := "healthy", tools_count := 0 } ∧
    loadSkills fsNoRoot = [] ∧
    sfHealth (loadSkills fsNoRoot) = { status := "ok", tools_count := 0 } :=
  C7_missing_root fsNoRoot rfl

/-- C8: whatever the registry or filesystem state, an initialize or
tools/list request succeeds in both variants - the response carries a
result and a none error. -/
theorem C8_list_and_init_ok (fs : FS) (r : SkillRegistry) (tools : List Tool)
    (body : Request)
    (h : body.method = some "initialize" ∨ body.method = some "tools/list") :
    ((mcpEndpoint r fs body).result.isSome = true ∧
      (mcpEndpoint r fs body).error = none) ∧
    ∃ resp : Response, sfEndpoint fs tools body = Except.ok resp ∧
      resp.result.isSome = true ∧ resp.error = none := by
  rcases h with h | h
  · refine ⟨⟨?_, ?_⟩,
      ⟨{ id := body.id.getD ""
         result := some (RpcResult.initRes "2024-11-05" "scientific-skills" "1.0.0")
         error := none }, ?_, rfl, rfl⟩⟩ <;>
      simp [mcpEndpoint, sfEndpoint, h]
  · refine ⟨⟨?_, ?_⟩,
      ⟨{ id := body.id.getD ""
         result := some (RpcResult.toolsRes tools)
         error := none }, ?_, rfl, rfl⟩⟩ <;>
      simp [mcpEndpoint, sfEndpoint, h]

/-- C8 witness: the conclusion instantiated at an initialize request. -/
theorem C8_list_and_init_ok_witness :
    ((mcpEndpoint SkillRegistry.init fsNoRoot reqW8).result.isSome = true ∧
      (mcpEndpoint SkillRegistry.init fsNoRoot reqW8).error = none) ∧
    ∃ resp : Response, sfEndpoint fsNoRoot [] reqW8 = Except.ok resp ∧
      resp.result.isSome = true ∧ resp.error = none :=
  C8_list_and_init_ok fsNoRoot SkillRegistry.init [] reqW8 (Or.inl rfl)

/-- C10: the single-file tools/call consults the filesystem at request time:
any name that is now a subdirectory with a readable SKILL.md returns that
file text, even when the name is absent from the startup tool list. -/
theorem C10_fs_at_call_time (fs : FS) (entries : List (String × Option String))
    (tools : List Tool) (body : Request) (n c : String)
    (hroot : fs.root = some entries)
    (hm : body.method = some "tools/call")
    (hn : assocGetD body.params "name" "" = n)
    (hdir : entries.find? (fun e => e.1 == n) = some (n, some c))
    (_habsent : n ∉ tools.map Tool.name) :
    sfEndpoint fs tools body =
      Except.ok
        { id := body.id.getD "", result := some (RpcResult.callRes c)
          error := none } := by
  simp [sfEndpoint, hm, hn, readSkillContent, hroot, hdir]

/-- C10 witness: the conclusion instantiated at fsC10 with an empty startup
tool list. -/
theorem C10_fs_at_call_time_witness :
    sfEndpoint fsC10 [] reqC10 =
      Except.ok
        { id := "10", result := some (RpcResult.callRes "hello world")
          error := none } :=
  C10_fs_at_call_time fsC10 [("alpha", some "hello world")] [] reqC10
    "alpha" "hello world" rfl rfl rfl rfl (by decide)

/-- The lexicographic comparison never ranks a list strictly below itself. -/
theorem charListLt_irrefl : ∀ l : List Char, charListLt l l = false := by
  intro l
  induction l with
  | nil => rfl
  | cons a as ih => simp [charListLt, lt_irrefl, ih]

/-- The lexicographic comparison is asymmetric. -/
theorem charListLt_asymm :
    ∀ l1 l2 : List Char, charListLt l1 l2 = true → charListLt l2 l1 = false := by
  intro l1
  induction l1 with
  | nil =>
    intro l2 h
    cases l2 <;> simp [charListLt] at h ⊢
  | cons a as ih =>
    intro l2 h
    cases l2 with
    | nil => simp [charListLt] at h
    | cons b bs =>
      by_cases hab : a < b
      · have hba : ¬ b < a := lt_asymm hab
        simp [charListLt, hab, hba]
      · by_cases hba : b < a
        · simp [charListLt, hab, hba] at h
        · simp [charListLt, hab, hba] at h ⊢
          exact ih bs h

/-- The lexicographic comparison is transitive. -/
theorem charListLt_trans :
    ∀ l1 l2 l3 : List Char, charListLt l1 l2 = true → charListLt l2 l3 = true →
      charListLt l1 l3 = true := by
  intro l1
  induction l1 with
  | nil =>
    intro l2 l3 h1 h2
    cases l2 with
    | nil => simp [charListLt] at h1
    | cons b bs =>
      cases l3 with
      | nil => simp [charListLt] at h2
      | cons c cs => simp [charListLt]
  | cons a as ih =>
    intro l2 l3 h1 h2
    cases l2 with
    | nil => simp [charListLt] at h1
    | cons b bs =>
      cases l3 with
      | nil => simp [charListLt] at h2
      | cons c cs =>
        by_cases hab : a < b
        · by_cases hbc : b < c
          · simp [charListLt, lt_trans hab hbc]
          · by_cases hcb : c < b
            · simp [charListLt, hbc, hcb] at h2
            · have hb : b = c := le_antisymm (not_lt.mp hcb) (not_lt.mp hbc)
              subst hb
              simp [charListLt, hab]
        · by_cases hba : b < a
          · simp [charListLt, hab, hba] at h1
          · have ha : a = b := le_antisymm (not_lt.mp hba) (not_lt.mp hab)
            subst ha
            by_cases hac : a < c
            · simp [charListLt, hac]
            · by_cases hca : c < a
              · simp [charListLt, hac, hca] at h2
              · simp [charListLt, hac, hca, lt_irrefl] at h1 h2 ⊢
                exact ih bs cs h1 h2

/-- Two lists the lexicographic comparison ranks below each other in neither
direction are equal. -/
theorem charListLt_connex :
    ∀ l1 l2 : List Char, charListLt l1 l2 = false → charListLt l2 l1 = false →
      l1 = l2 := by
  intro l1
  induction l1 with
  | nil =>
    intro l2 h1 _
    cases l2 with
    | nil => rfl
    | cons b bs => simp [charListLt] at h1
  | cons a as ih =>
    intro l2 h1 h2
    cases l2 with
    | nil => simp [charListLt] at h2
    | cons b bs =>
      by_cases hab : a < b
      · simp [charListLt, hab] at h1
      · by_cases hba : b < a
        · simp [charListLt, hba, lt_asymm hba] at h2
        · have hb : a = b := le_antisymm (not_lt.mp hba) (not_lt.mp hab)
          subst hb
          simp [charListLt, lt_irrefl] at h1 h2
          rw [ih bs h1 h2]

/-- The scan order comparison is total. -/
theorem entryLe_total (a b : String × Option String) : entryLe a b ∨ entryLe b a := by
  cases h : strLtB b.1 a.1
  · exact Or.inl h
  · exact Or.inr (charListLt_asymm _ _ h)

/-- The scan order comparison is transitive. -/
theorem entryLe_trans (a b c : String × Option String)
    (h1 : entryLe a b) (h2 : entryLe b c) : entryLe a c := by
  simp only [entryLe, strLtB] at h1 h2 ⊢
  cases hca : charListLt c.1.data a.1.data
  · rfl
  · by_cases hab : charListLt a.1.data b.1.data = true
    · have := charListLt_trans _ _ _ hca hab
      rw [this] at h2
      exact Bool.noConfusion h2
    · have hab2 : charListLt a.1.data b.1.data = false := by
        cases hx : charListLt a.1.data b.1.data
        · rfl
        · exact absurd hx hab
      have heq : a.1.data = b.1.data := charListLt_connex _ _ hab2 h1
      rw [← heq, hca] at h2
      exact Bool.noConfusion h2

/-- Inserting into a sorted list in order keeps it sorted. -/
theorem pairwise_orderedInsert (a : String × Option String) :
    ∀ l : List (String × Option String), l.Pairwise entryLe →
      (List.orderedInsert entryLe a l).Pairwise entryLe := by
  intro l
  induction l with
  | nil => intro _; simp [List.orderedInsert]
  | cons b bs ih =>
    intro h
    rcases List.pairwise_cons.mp h with ⟨hb, hbs⟩
    by_cases hab : entryLe a b
    · rw [List.orderedInsert, if_pos hab]
      refine List.pairwise_cons.mpr ⟨?_, h⟩
      intro x hx
      rcases List.mem_cons.mp hx with hx | hx
      · exact hx ▸ hab
      · exact entryLe_trans a b x hab (hb x hx)
    · rw [List.orderedInsert, if_neg hab]
      refine List.pairwise_cons.mpr ⟨?_, ih hbs⟩
      intro x hx
      rcases (List.mem_orderedInsert entryLe).mp hx with hx | hx
      · rcases entryLe_total a b with h2 | h2
        · exact absurd h2 hab
        · exact hx ▸ h2
      · exact hb x hx

/-- The sorted scan is sorted by directory name. -/
theorem pairwise_sortEntries (l : List (String × Option String)) :
    (sortEntries l).Pairwise entryLe := by
  induction l with
  | nil => simp [sortEntries, List.insertionSort]
  | cons e es ih =>
    have : sortEntries (e :: es) =
        List.orderedInsert entryLe e (sortEntries es) := rfl
    rw [this]
    exact pairwise_orderedInsert e _ ih

/-- Membership is invariant under the sorted scan. -/
theorem mem_sortEntries {x : String × Option String}
    {l : List (String × Option String)} : x ∈ sortEntries l ↔ x ∈ l :=
  List.mem_insertionSort entryLe

/-- The number of keys equals the number of stored pairs. -/
theorem length_keysOf {α : Type} (m : List (String × α)) :
    (keysOf m).length = m.length := by simp [keysOf]

/-- A dict.get over a mapping lacking the key returns the default. -/
theorem assocGetD_of_none {m : List (String × String)} {k d : String}
    (h : dictLookup m k = none) : assocGetD m k d = d := by
  simp [assocGetD, h]

/-- C1 amended: every name the registry lists round-trips through
get_skill_content to the untouched text of some scanned SKILL.md file
(so the content is non-empty exactly when that file is non-empty). -/
theorem C1_roundtrip (fs : FS) (entries : List (String × Option String))
    (hroot : fs.root = some entries) (t : Tool)
    (ht : t ∈ (SkillRegistry.init.load fs).list_tools fs) :
    ∃ d c, (d, some c) ∈ entries ∧
      (SkillRegistry.init.load fs).get_skill_content fs t.name = some c := by
  rw [SkillRegistry.list_tools, ensure_load, skills_load _ _ _ hroot] at ht
  rcases List.mem_map.mp ht with ⟨p, hp, htool⟩
  have hnodup :
      (keysOf ((sortEntries entries).foldl loadStep SkillRegistry.init.skills)).Nodup := by
    apply nodup_keysOf_foldl_loadStep
    simp [SkillRegistry.init, keysOf]
  rcases mem_foldl_loadStep _ _ _ hp with ⟨e, he, hsk, hkey⟩ | hmem
  · rcases e with ⟨d, oc⟩
    rcases oc with _ | c
    · simp [skillOfEntry] at hsk
    · refine ⟨d, c, mem_sortEntries.mp he, ?_⟩
      rw [SkillRegistry.get_skill_content, ensure_load, skills_load _ _ _ hroot]
      have hname : t.name = p.1 := by
        rw [← htool, hkey]
        simp [toolOfSkill]
      rw [hname]
      have hlk :
          dictLookup ((sortEntries entries).foldl loadStep SkillRegistry.init.skills)
            p.1 = some p.2 := dictLookup_of_mem_nodup hnodup (by cases p; exact hp)
      rw [hlk]
      have hc : p.2.content = c := by
        simp only [skillOfEntry] at hsk
        rw [← Option.some.inj hsk]
      simp [hc]
  · simp [SkillRegistry.init] at hmem

/-- C1 witness: the round trip instantiated at fsW1. -/
theorem C1_roundtrip_witness :
    ∃ d c, (d, some c) ∈ [("w", (some "doc" : Option String))] ∧
      (SkillRegistry.init.load fsW1).get_skill_content fsW1
        (Tool.name { name := "w", description := ""
                     schemaQueryDescription := registryQueryDescription }) = some c :=
  C1_roundtrip fsW1 [("w", some "doc")] rfl
    { name := "w", description := "", schemaQueryDescription := registryQueryDescription }
    (by decide)

/-- C2 amended: a tools/call whose name the lookup settles as unknown gets
the error envelope with the id echoed, a none result and a non-empty error
naming the tool - unconditionally in the registry variant, and in the
single-file variant whenever the filesystem lookup completes with a miss
rather than raising. -/
theorem C2_unknown_tool :
    (∀ (r : SkillRegistry) (fs : FS) (body : Request) (n : String),
       body.method = some "tools/call" →
       assocGetD body.params "name" "" = n →
       dictLookup (r.ensure fs).skills n = none →
       mcpEndpoint r fs body =
         { id := body.id.getD "unknown", result := none
           error := some ("Unknown tool: " ++ n) }) ∧
    (∀ (fs : FS) (tools : List Tool) (body : Request) (n : String),
       body.method = some "tools/call" →
       assocGetD body.params "name" "" = n →
       readSkillContent fs n = Except.ok none →
       sfEndpoint fs tools body =
         Except.ok
           { id := body.id.getD "", result := none
             error := some ("Skill " ++ quoteStr ++ n ++ quoteStr ++ " not found") }) := by
  constructor
  · intro r fs body n hm hn hmiss
    simp [mcpEndpoint, hm, hn, SkillRegistry.get_skill_content, hmiss]
  · intro fs tools body n hm hn hmiss
    simp [sfEndpoint, hm, hn, hmiss]

/-- C2 witness: both envelopes instantiated over the empty catalog. -/
theorem C2_unknown_tool_witness :
    mcpEndpoint SkillRegistry.init fsEmptyDir reqW2 =
      { id := "w2", result := none, error := some ("Unknown tool: " ++ "gone") } ∧
    sfEndpoint fsEmptyDir [] reqW2 =
      Except.ok
        { id := "w2", result := none
          error := some ("Skill " ++ quoteStr ++ "gone" ++ quoteStr ++ " not found") } :=
  ⟨C2_unknown_tool.1 SkillRegistry.init fsEmptyDir reqW2 "gone" rfl rfl rfl,
   C2_unknown_tool.2 fsEmptyDir [] reqW2 "gone" rfl rfl rfl⟩

/-- C9 amended: a tools/call whose params mapping lacks the name key is
treated as naming the empty string; when no skill answers to the empty name
it yields the ordinary unknown-tool envelope with the id echoed - in the
single-file variant provided the filesystem fallback scan completes with a
miss rather than raising. -/
theorem C9_missing_name :
    (∀ (r : SkillRegistry) (fs : FS) (body : Request),
       body.method = some "tools/call" →
       dictLookup body.params "name" = none →
       dictLookup (r.ensure fs).skills "" = none →
       mcpEndpoint r fs body =
         { id := body.id.getD "unknown", result := none
           error := some ("Unknown tool: " ++ "") }) ∧
    (∀ (fs : FS) (tools : List Tool) (body : Request),
       body.method = some "tools/call" →
       dictLookup body.params "name" = none →
       readSkillContent fs "" = Except.ok none →
       sfEndpoint fs tools body =
         Except.ok
           { id := body.id.getD "", result := none
             error := some ("Skill " ++ quoteStr ++ "" ++ quoteStr ++ " not found") }) := by
  constructor
  · intro r fs body hm hp hmiss
    have hn : assocGetD body.params "name" "" = "" := assocGetD_of_none hp
    simp [mcpEndpoint, hm, hn, SkillRegistry.get_skill_content, hmiss]
  · intro fs tools body hm hp hmiss
    have hn : assocGetD body.params "name" "" = "" := assocGetD_of_none hp
    simp [sfEndpoint, hm, hn, hmiss]

/-- C9 witness: both envelopes instantiated at a nameless call over the
empty catalog. -/
theorem C9_missing_name_witness :
    mcpEndpoint SkillRegistry.init fsEmptyDir reqW9 =
      { id := "w9", result := none, error := some ("Unknown tool: " ++ "") } ∧
    sfEndpoint fsEmptyDir [] reqW9 =
      Except.ok
        { id := "w9", result := none
          error := some ("Skill " ++ quoteStr ++ "" ++ quoteStr ++ " not found") } :=
  ⟨C9_missing_name.1 SkillRegistry.init fsEmptyDir reqW9 rfl rfl rfl,
   C9_missing_name.2 fsEmptyDir [] reqW9 rfl rfl rfl⟩

/-- C4: the registry variant treats a document whose header marker is never
closed as header-less, with no error; but the single-file variant raises
from the tools/call fallback scan on the same document shape (fsC4), so the
exception escapes the dispatcher instead of degrading to an envelope. -/
theorem C4_unterminated_header :
    (∀ content : String, startsWithMarker content.data = true →
       findDash content.data = none →
       parseFrontmatter content = ([], content)) ∧
    sfEndpoint fsC4 (loadSkills fsC4) reqC4 = Except.error () := by
  constructor
  · intro content h1 h2
    simp [parseFrontmatter, h1, h2]
  · rfl

/-- C4 witness: the tolerant branch applied to the three-hyphen document,
alongside the single-file escape. -/
theorem C4_unterminated_header_witness :
    parseFrontmatter "---" = ([], "---") ∧
    sfEndpoint fsC4 (loadSkills fsC4) reqC4 = Except.error () :=
  ⟨C4_unterminated_header.1 "---" rfl rfl, C4_unterminated_header.2⟩

/-- C5 amended: the single-file _read_skill_content implements the two-step
lookup - directory fast path first, canonical-name scan on a miss - while
the registry variant is a single canonical-name dict lookup that does not
alias directory names: lookup of a stored key returns its content, and any
name outside the key set (a bare directory name included) returns none. -/
theorem C5_lookup :
    (∀ (fs : FS) (entries : List (String × Option String)) (d c : String),
       fs.root = some entries →
       entries.find? (fun e => e.1 == d) = some (d, some c) →
       readSkillContent fs d = Except.ok (some c)) ∧
    (∀ (fs : FS) (entries : List (String × Option String)) (n : String),
       fs.root = some entries →
       (∀ e ∈ entries, e.1 = n → e.2 = none) →
       readSkillContent fs n = scanFor entries n) ∧
    (∀ (fs : FS) (n : String) (s : Skill),
       (n, s) ∈ (SkillRegistry.init.load fs).skills →
       (SkillRegistry.init.load fs).get_skill_content fs n = some s.content) ∧
    (∀ (fs : FS) (n : String),
       dictLookup (SkillRegistry.init.load fs).skills n = none →
       (SkillRegistry.init.load fs).get_skill_content fs n = none) := by
  refine ⟨?_, ?_, ?_, ?_⟩
  · intro fs entries d c hroot hfind
    simp [readSkillContent, hroot, hfind]
  · intro fs entries n hroot hnone
    rcases hf : entries.find? (fun e => e.1 == n) with _ | p
    · simp [readSkillContent, hroot, hf]
    · have hp1 : p.1 = n := by simpa using List.find?_some hf
      have hp2 : p.2 = none := hnone p (List.mem_of_find?_eq_some hf) hp1
      rcases p with ⟨pn, pc⟩
      simp only at hp2
      subst hp2
      simp [readSkillContent, hroot, hf]
  · intro fs n s hmem
    rcases hroot : fs.root with _ | entries
    · rw [SkillRegistry.load] at hmem
      simp [hroot, SkillRegistry.init] at hmem
    · have hnodup :
          (keysOf ((sortEntries entries).foldl loadStep SkillRegistry.init.skills)).Nodup := by
        apply nodup_keysOf_foldl_loadStep
        simp [SkillRegistry.init, keysOf]
      rw [skills_load _ _ _ hroot] at hmem
      rw [SkillRegistry.get_skill_content, ensure_load, skills_load _ _ _ hroot,
        dictLookup_of_mem_nodup hnodup hmem]
      rfl
  · intro fs n h
    rw [SkillRegistry.get_skill_content, ensure_load, h]
    rfl

/-- C5 witness: the fast path and the stored-key lookup at fsW5. -/
theorem C5_lookup_witness :
    readSkillContent fsW5 "w5" = Except.ok (some "K") ∧
    (SkillRegistry.init.load fsW5).get_skill_content fsW5 "w5" = some "K" :=
  ⟨C5_lookup.1 fsW5 [("w5", some "K")] "w5" "K" rfl rfl,
   C5_lookup.2.2.1 fsW5 "w5"
     { name := "w5", description := "", dir_name := "w5", content := "K" } (by decide)⟩

/-- C6 amended: reloading an unchanged directory is idempotent - the key
list (hence the size and the name set) is unchanged - but a second load does
not clear the dict: any key the new scan does not resolve keeps its binding
from the previous load. -/
theorem C6_load_again :
    (∀ (fs : FS) (r : SkillRegistry),
       keysOf ((r.load fs).load fs).skills = keysOf (r.load fs).skills ∧
       ((r.load fs).load fs).skills.length = (r.load fs).skills.length) ∧
    (∀ (fs1 fs2 : FS) (entries2 : List (String × Option String))
       (r : SkillRegistry) (k : String),
       fs2.root = some entries2 →
       findLast (resolves k) (sortEntries entries2) = none →
       dictLookup ((r.load fs1).load fs2).skills k =
         dictLookup (r.load fs1).skills k) := by
  constructor
  · intro fs r
    have hkeys : keysOf ((r.load fs).load fs).skills = keysOf (r.load fs).skills := by
      rcases hroot : fs.root with _ | entries
      · simp [SkillRegistry.load, hroot]
      · rw [skills_load (r.load fs) fs entries hroot, skills_load r fs entries hroot,
          keysOf_foldl_loadStep, keysOf_foldl_loadStep]
        exact foldl_keyStep_idem _ _
    refine ⟨hkeys, ?_⟩
    have hlen := congrArg List.length hkeys
    rw [length_keysOf, length_keysOf] at hlen
    exact hlen
  · intro fs1 fs2 entries2 r k hroot hfl
    rw [skills_load (r.load fs1) fs2 entries2 hroot, dictLookup_foldl_loadStep, hfl]

/-- C6 witness: the surviving binding of the key solo after reloading
against the emptied directory. -/
theorem C6_load_again_witness :
    dictLookup ((SkillRegistry.init.load fsOne).load fsEmptyDir).skills "solo" =
      dictLookup (SkillRegistry.init.load fsOne).skills "solo" :=
  C6_load_again.2 fsOne fsEmptyDir [] SkillRegistry.init "solo" rfl rfl

/-- C3 amended: in the registry variant the canonical name is the primary
key - the listed names never repeat, and when exactly two scanned
directories resolve to the same canonical name the registry keeps exactly
one entry for it, the skill of the directory later in the
lexicographic-by-name scan order. (The single-file variant instead lists
one descriptor per directory, duplicates included, and resolves calls to
the first frontmatter match in iteration order - see the counterexample.) -/
theorem C3_last_write_wins :
    (∀ fs : FS, (((SkillRegistry.init.load fs).list_tools fs).map Tool.name).Nodup) ∧
    (∀ (fs : FS) (entries : List (String × Option String))
       (e1 e2 : String × Option String) (s1 s2 : Skill) (n : String),
       fs.root = some entries → e1 ∈ entries → e2 ∈ entries →
       skillOfEntry e1 = some s1 → skillOfEntry e2 = some s2 →
       s1.name = n → s2.name = n → strLtB e1.1 e2.1 = true →
       (∀ e ∈ entries, e ≠ e1 → e ≠ e2 → resolves n e = false) →
       dictLookup (SkillRegistry.init.load fs).skills n = some s2 ∧
       (SkillRegistry.init.load fs).skills.countP (fun p => p.1 == n) = 1) := by
  constructor
  · intro fs
    rcases hroot : fs.root with _ | entries
    · rw [SkillRegistry.list_tools, ensure_load, SkillRegistry.load]
      simp [hroot, SkillRegistry.init]
    · rw [SkillRegistry.list_tools, ensure_load, skills_load _ _ _ hroot]
      have hnodup :
          (keysOf ((sortEntries entries).foldl loadStep SkillRegistry.init.skills)).Nodup := by
        apply nodup_keysOf_foldl_loadStep
        simp [SkillRegistry.init, keysOf]
      have hmapeq :
          (((sortEntries entries).foldl loadStep SkillRegistry.init.skills).map
              (fun p => toolOfSkill p.2)).map Tool.name =
            keysOf ((sortEntries entries).foldl loadStep SkillRegistry.init.skills) := by
        rw [List.map_map, keysOf]
        apply List.map_congr_left
        intro p hp
        rcases mem_foldl_loadStep _ _ _ hp with ⟨_, _, _, hkey⟩ | habs
        · simp [toolOfSkill, hkey]
        · simp [SkillRegistry.init] at habs
      rw [hmapeq]
      exact hnodup
  · intro fs entries e1 e2 s1 s2 n hroot h1 h2 hs1 hs2 hn1 hn2 hlt honly
    have hnodup :
        (keysOf ((sortEntries entries).foldl loadStep SkillRegistry.init.skills)).Nodup := by
      apply nodup_keysOf_foldl_loadStep
      simp [SkillRegistry.init, keysOf]
    have hp2 : resolves n e2 = true := by
      simp [resolves, hs2, hn2]
    have hfl : findLast (resolves n) (sortEntries entries) = some e2 := by
      apply findLast_sorted _ (pairwise_sortEntries entries) _ _
        (mem_sortEntries.mpr h2) hp2
      intro e he hpe
      by_cases hee2 : e = e2
      · exact Or.inl hee2
      · by_cases hee1 : e = e1
        · exact Or.inr (hee1 ▸ hlt)
        · rw [honly e (mem_sortEntries.mp he) hee1 hee2] at hpe
          exact Bool.noConfusion hpe
    have hlk :
        dictLookup ((sortEntries entries).foldl loadStep SkillRegistry.init.skills) n =
          some s2 := by
      rw [dictLookup_foldl_loadStep, hfl]
      simp [hs2]
    constructor
    · rw [skills_load _ _ _ hroot]
      exact hlk
    · rw [skills_load _ _ _ hroot]
      exact countP_key_eq_one hnodup (by rw [hlk]; rfl)

/-- C3 witness: the collision fixture fsW3, where directories p and q9 both
declare the canonical name q and the later directory q9 wins. -/
theorem C3_last_write_wins_witness :
    dictLookup (SkillRegistry.init.load fsW3).skills "q" =
      some { name := "q", description := "", dir_name := "q9"
             content := "---\nname: q\n---\nQ" } ∧
    (SkillRegistry.init.load fsW3).skills.countP (fun p => p.1 == "q") = 1 :=
  C3_last_write_wins.2 fsW3
    [("p", some "---\nname: q\n---\nP"), ("q9", some "---\nname: q\n---\nQ")]
    ("p", some "---\nname: q\n---\nP") ("q9", some "---\nname: q\n---\nQ")
    { name := "q", description := "", dir_name := "p", content := "---\nname: q\n---\nP" }
    { name := "q", description := "", dir_name := "q9", content := "---\nname: q\n---\nQ" }
    "q" rfl (by decide) (by decide) (by decide) (by decide) rfl rfl rfl (by decide)
